import Mathlib

/-!
Verification of the document-ingestion and retrieval-grounding core of the
financial-literacy chatbot repository.  The Python sources are shallowly
embedded: text is `List Char` (one element per Unicode code point, matching
Python's `len`/slicing), machine integers are `Nat` (with notes where Python
int subtraction could go negative), and fallible or possibly-diverging code
returns `Option`.
-/

namespace LitBot

/-! ### Basic text helpers (Python string strip, separator join, substring test)

`pyIsSpace` models Python's whitespace class restricted to its ASCII members,
which are the only whitespace characters the embedded inputs use.
-/

def pyIsSpace (c : Char) : Bool :=
  c = ' ' || c = '\t' || c = '\n' || c = '\r' || c = '\x0b' || c = '\x0c'

/-- Python `str.strip()` on a list of characters. -/
def pyStripList (cs : List Char) : List Char :=
  ((cs.dropWhile pyIsSpace).reverse.dropWhile pyIsSpace).reverse

/-- Python's string join: `parts` interleaved with `sep`. -/
def joinSep (sep : List Char) : List (List Char) → List Char
  | [] => []
  | [x] => x
  | x :: y :: xs => x ++ sep ++ joinSep sep (y :: xs)

/-- Does `pat` occur at the head of `s`? -/
def leadMatch : List Char → List Char → Bool
  | [], _ => true
  | _ :: _, [] => false
  | p :: ps, c :: cs => p = c && leadMatch ps cs

/-- Does `pat` occur anywhere inside `s` (Python `pat in s`)? -/
def hasSubstr (pat : List Char) : List Char → Bool
  | [] => leadMatch pat []
  | c :: cs => leadMatch pat (c :: cs) || hasSubstr pat cs

/-! ### Chunker: `pdf_processor.chunk_text`

```
def chunk_text(text, chunk_size=1500, chunk_overlap=200):
    chunks = []
    start = 0
    while start < len(text):
        end = start + chunk_size
        chunk = text[start:end]
        chunks.append(chunk)
        if end >= len(text): break
        start += chunk_size - chunk_overlap
    return [c.strip() for c in chunks if c.strip()]
```

The `while` loop is embedded with explicit fuel: `chunkLoop` returns `none`
exactly when the fuel bound is exhausted before the loop finishes.  Python's
`chunk_size - chunk_overlap` is an `int` subtraction; the `Nat` subtraction
here agrees with it whenever `chunk_overlap ≤ chunk_size`, which covers every
statement proved below.
-/

def chunkLoop (text : List Char) (size overlap : Nat) :
    Nat → Nat → Option (List (List Char))
  | fuel, start =>
    if start < text.length then
      match fuel with
      | 0 => none
      | fuel' + 1 =>
        let chunk := (text.drop start).take size
        if start + size ≥ text.length then
          some [chunk]
        else
          (chunkLoop text size overlap fuel' (start + (size - overlap))).map
            (fun rest => chunk :: rest)
    else
      some []

/-- `chunk_text`, with fuel `text.length + 1` (shown sufficient for every
valid configuration in the termination theorem below). -/
def chunk_text (text : List Char) (size overlap : Nat) :
    Option (List (List Char)) :=
  (chunkLoop text size overlap (text.length + 1) 0).map
    (fun ws => (ws.map pyStripList).filter (fun c => !c.isEmpty))

/-- The reconstruction operation exactly as the claim words it: keep the
first chunk whole and drop the LAST `overlap` characters of every later
chunk, then concatenate. -/
def reconstructSpec (overlap : Nat) : List (List Char) → List Char
  | [] => []
  | c :: cs => c ++ (cs.map (fun d => d.take (d.length - overlap))).flatten

/-- Reconstruction that drops the FIRST `overlap` characters of every chunk
after the first (the overlap shared with the predecessor). -/
def reconstructDrop (overlap : Nat) : List (List Char) → List Char
  | [] => []
  | c :: cs => c ++ (cs.map (fun d => d.drop overlap)).flatten

/-- Joined tails of a window list, each with its leading `overlap`
characters removed. -/
def tailJoin (overlap : Nat) (ws : List (List Char)) : List Char :=
  (ws.map (fun d => d.drop overlap)).flatten

theorem chunkLoop_progress (text : List Char) (size overlap : Nat)
    (hso : overlap < size) :
    ∀ fuel start, text.length ≤ start + fuel →
      ∃ ws, chunkLoop text size overlap fuel start = some ws ∧
        tailJoin overlap ws = text.drop (start + overlap) := by
  intro fuel
  induction fuel with
  | zero =>
    intro start h
    simp only [Nat.add_zero] at h
    refine ⟨[], ?_, ?_⟩
    · rw [chunkLoop]
      simp [Nat.not_lt.mpr h]
    · simp [tailJoin, (List.drop_eq_nil_iff).mpr (Nat.le_trans h (Nat.le_add_right _ _))]
  | succ fuel ih =>
    intro start h
    by_cases hstart : start < text.length
    · by_cases hend : start + size ≥ text.length
      · refine ⟨[(text.drop start).take size], ?_, ?_⟩
        · rw [chunkLoop]; simp [hstart, hend]
        · simp only [tailJoin, List.map_cons, List.map_nil, List.flatten_cons,
            List.flatten_nil, List.append_nil]
          rw [List.drop_take, List.drop_drop]
          exact List.take_of_length_le (by simp only [List.length_drop]; omega)
      · have hrec := ih (start + (size - overlap)) (by omega)
        obtain ⟨ws, hws, hjoin⟩ := hrec
        refine ⟨(text.drop start).take size :: ws, ?_, ?_⟩
        · rw [chunkLoop]
          simp [hstart, hend, hws]
        · simp only [tailJoin, List.map_cons, List.flatten_cons]
          have h1 : ((text.drop start).take size).drop overlap
              = (text.drop (start + overlap)).take (size - overlap) := by
            rw [List.drop_take, List.drop_drop]
          have hjoin' : tailJoin overlap ws
              = text.drop (start + (size - overlap) + overlap) := hjoin
          have h2 : text.drop (start + (size - overlap) + overlap)
              = (text.drop (start + overlap)).drop (size - overlap) := by
            rw [List.drop_drop]
            congr 1
            omega
          show ((text.drop start).take size).drop overlap ++ tailJoin overlap ws
              = text.drop (start + overlap)
          rw [h1, hjoin', h2, List.take_append_drop]
    · refine ⟨[], ?_, ?_⟩
      · rw [chunkLoop]; simp [hstart]
      · simp [tailJoin,
          (List.drop_eq_nil_iff).mpr
            (Nat.le_trans (Nat.le_of_not_lt hstart) (Nat.le_add_right _ _))]

/-- C10: for every input text and every pair `(size, overlap)` with
`0 < size` and `overlap < size`, `chunk_text` terminates — the fueled
embedding of the while-loop completes within `text.length + 1` iterations,
because each iteration either reaches the end of the text or advances the
window start by the strictly positive amount `size - overlap`. -/
theorem C10_chunk_text_terminates (text : List Char) (size overlap : Nat)
    (_hs : 0 < size) (ho : overlap < size) :
    ∃ cs, chunk_text text size overlap = some cs := by
  obtain ⟨ws, hws, -⟩ :=
    chunkLoop_progress text size overlap ho (text.length + 1) 0 (by omega)
  exact ⟨_, by rw [chunk_text, hws]; rfl⟩

/-- Witness for C10 at a concrete input. -/
theorem C10_chunk_text_terminates_witness :
    ∃ cs, chunk_text ['a', 'b', 'c', 'd', 'e'] 3 1 = some cs :=
  C10_chunk_text_terminates ['a', 'b', 'c', 'd', 'e'] 3 1 (by decide) (by decide)

/-- C2 counterexample: on the six-character text `abcdef` with
`size = 4`, `overlap = 2`, the chunks are `abcd` and `cdef`; joining them
while trimming the LAST `overlap` characters of each chunk except the first
gives `abcdcd`, not the (trivially stripped) original text. -/
theorem C2_counterexample :
    chunk_text ['a', 'b', 'c', 'd', 'e', 'f'] 4 2
      = some [['a', 'b', 'c', 'd'], ['c', 'd', 'e', 'f']] ∧
    reconstructSpec 2 [['a', 'b', 'c', 'd'], ['c', 'd', 'e', 'f']]
      ≠ pyStripList ['a', 'b', 'c', 'd', 'e', 'f'] := by
  constructor
  · decide
  · decide

/-- C2 (amended): for every text and every valid pair `(size, overlap)` with
`0 < size` and `overlap < size`, the raw windows produced by the chunking
loop reconstruct the original input text exactly when the FIRST `overlap`
characters of each window except the first are dropped before joining; the
value returned by `chunk_text` is these windows with surrounding whitespace
stripped and empty results removed. -/
theorem C2_chunk_reconstruction (text : List Char) (size overlap : Nat)
    (_hs : 0 < size) (ho : overlap < size) :
    ∃ ws, chunkLoop text size overlap (text.length + 1) 0 = some ws ∧
      reconstructDrop overlap ws = text ∧
      chunk_text text size overlap
        = some ((ws.map pyStripList).filter (fun c => !c.isEmpty)) := by
  by_cases hnil : 0 < text.length
  · by_cases hend : text.length ≤ size
    · have hloop : chunkLoop text size overlap (text.length + 1) 0
          = some [(text.drop 0).take size] := by
        rw [chunkLoop]; simp [hnil, hend]
      refine ⟨[(text.drop 0).take size], hloop, ?_, ?_⟩
      · simp only [reconstructDrop, List.map_nil, List.flatten_nil,
          List.append_nil, List.drop_zero]
        exact List.take_of_length_le hend
      · rw [chunk_text, hloop]; rfl
    · obtain ⟨ws', hws', hjoin⟩ :=
        chunkLoop_progress text size overlap ho text.length
          (size - overlap) (by omega)
      have hloop : chunkLoop text size overlap (text.length + 1) 0
          = some ((text.drop 0).take size :: ws') := by
        rw [chunkLoop]; simp [hnil, hend, hws']
      refine ⟨(text.drop 0).take size :: ws', hloop, ?_, ?_⟩
      · have hj : tailJoin overlap ws' = text.drop size := by
          rw [hjoin]; congr 1; omega
        show (text.drop 0).take size ++ tailJoin overlap ws' = text
        rw [hj, List.drop_zero, List.take_append_drop]
      · rw [chunk_text, hloop]; rfl
  · have hloop : chunkLoop text size overlap (text.length + 1) 0
        = some [] := by
      rw [chunkLoop]; simp [hnil]
    refine ⟨[], hloop, ?_, ?_⟩
    · have ht : text = [] := List.length_eq_zero.mp (by omega)
      simp [reconstructDrop, ht]
    · rw [chunk_text, hloop]; rfl

/-- Witness for the amended C2 at a concrete input. -/
theorem C2_chunk_reconstruction_witness :
    ∃ ws, chunkLoop ['a', 'b', 'c', 'd', 'e', 'f'] 4 2 7 0 = some ws ∧
      reconstructDrop 2 ws = ['a', 'b', 'c', 'd', 'e', 'f'] ∧
      chunk_text ['a', 'b', 'c', 'd', 'e', 'f'] 4 2
        = some ((ws.map pyStripList).filter (fun c => !c.isEmpty)) :=
  C2_chunk_reconstruction ['a', 'b', 'c', 'd', 'e', 'f'] 4 2
    (by decide) (by decide)

/-- C5: the claim says a configuration with `overlap ≥ size` raises a fatal
ConfigurationError before any chunk is produced.  The source performs no such
validation: on `overlap = size` the loop start never advances, so for any
text longer than `size` the while-loop never terminates — the fueled
embedding returns `none` for every fuel bound (here `text = abcd`,
`size = overlap = 2`). -/
theorem C5_no_validation_loop_diverges :
    (∀ fuel, chunkLoop ['a', 'b', 'c', 'd'] 2 2 fuel 0 = none) ∧
    chunk_text ['a', 'b', 'c', 'd'] 2 2 = none := by
  have hloop : ∀ fuel, chunkLoop ['a', 'b', 'c', 'd'] 2 2 fuel 0 = none := by
    intro fuel
    induction fuel with
    | zero => decide
    | succ fuel ih =>
      rw [chunkLoop]
      simpa using ih
  exact ⟨hloop, by rw [chunk_text, hloop]; rfl⟩

/-! ### Indexer: `database_builder.main`

```
if args.reset:
    db.delete_collection()
    db = Chroma.from_documents(docs, ...)
else:
    existing_hashes = {meta["content_hash"] for meta in db.get(...)}
    new_docs = [doc for doc in docs if doc.metadata.get("content_hash") not in existing_hashes]
    if not new_docs: return
    db.add_documents(new_docs)
```

The embedding store is a list of stored records; each carries the
`content_hash` computed at load time.  `reset` replaces the whole store by
the incoming records; `incremental` appends exactly the records whose hash
is not already present in the store.
-/

structure StoredDoc where
  page_content : String
  content_hash : String
deriving DecidableEq

/-- The metadata scan: all `content_hash` values in the store, in order. -/
def storeHashes (store : List StoredDoc) : List String :=
  store.map (fun d => d.content_hash)

/-- Incremental-mode ingestion (the `else` branch of `main`). -/
def ingestIncremental (store docs : List StoredDoc) : List StoredDoc :=
  store ++ docs.filter (fun d => decide (d.content_hash ∉ storeHashes store))

/-- Reset-mode ingestion (the `--reset` branch of `main`): the collection is
dropped and all incoming records are inserted unconditionally. -/
def ingestReset (_store docs : List StoredDoc) : List StoredDoc :=
  docs

/-- One run of `database_builder.main` in either mode. -/
inductive IngestOp where
  | reset (docs : List StoredDoc)
  | incremental (docs : List StoredDoc)
deriving DecidableEq

def opDocs : IngestOp → List StoredDoc
  | .reset docs => docs
  | .incremental docs => docs

def applyIngest (store : List StoredDoc) : IngestOp → List StoredDoc
  | .reset docs => ingestReset store docs
  | .incremental docs => ingestIncremental store docs

def runIngest (store : List StoredDoc) (ops : List IngestOp) : List StoredDoc :=
  ops.foldl applyIngest store

theorem mem_storeHashes_ingestIncremental (store docs : List StoredDoc) :
    ∀ d ∈ docs, d.content_hash ∈ storeHashes (ingestIncremental store docs) := by
  intro d hd
  by_cases hmem : d.content_hash ∈ storeHashes store
  · simp only [ingestIncremental, storeHashes, List.map_append, List.mem_append]
    exact Or.inl hmem
  · have hfil : d ∈ docs.filter
        (fun d => decide (d.content_hash ∉ storeHashes store)) := by
      rw [List.mem_filter]
      exact ⟨hd, by simpa using hmem⟩
    simp only [ingestIncremental, storeHashes, List.map_append, List.mem_append]
    exact Or.inr (List.mem_map_of_mem _ hfil)

/-- C3: incremental ingestion is idempotent — ingesting the same record set
a second time adds zero new records: every incoming record's `content_hash`
is already present in the store after the first run, so the second run's
novel subset is empty and the store (hence its size) is unchanged. -/
theorem C3_incremental_idempotent (store docs : List StoredDoc) :
    docs.filter
        (fun d => decide
          (d.content_hash ∉ storeHashes (ingestIncremental store docs))) = [] ∧
    ingestIncremental (ingestIncremental store docs) docs
      = ingestIncremental store docs := by
  have hnil : docs.filter
      (fun d => decide
        (d.content_hash ∉ storeHashes (ingestIncremental store docs))) = [] := by
    rw [List.filter_eq_nil_iff]
    intro d hd
    simpa using mem_storeHashes_ingestIncremental store docs d hd
  refine ⟨hnil, ?_⟩
  conv_lhs => rw [ingestIncremental]
  rw [hnil, List.append_nil]

/-- C4 counterexample: a single incremental run over a batch that contains
the same record twice inserts it twice — the store then holds two records
with the same `content_hash`, violating the claimed invariant. -/
theorem C4_counterexample :
    storeHashes
        (ingestIncremental []
          [⟨"duplicate chunk text", "aa00"⟩, ⟨"duplicate chunk text", "aa00"⟩])
      = ["aa00", "aa00"] ∧
    ¬ (storeHashes
        (ingestIncremental []
          [⟨"duplicate chunk text", "aa00"⟩,
           ⟨"duplicate chunk text", "aa00"⟩])).Nodup := by
  constructor
  · decide
  · decide

/-- C4 (amended): after any sequence of ingest operations (reset or
incremental) over input record sets whose content hashes are pairwise
distinct within each batch, starting from a store with pairwise-distinct
hashes, the store never holds two records with the same `content_hash`.
(The source deduplicates only against the hashes already in the store, not
within a batch, so the batch-level distinctness hypothesis is necessary —
see the counterexample.) -/
theorem C4_store_hashes_nodup (store : List StoredDoc) (ops : List IngestOp)
    (hstore : (storeHashes store).Nodup)
    (hops : ∀ op ∈ ops, (storeHashes (opDocs op)).Nodup) :
    (storeHashes (runIngest store ops)).Nodup := by
  induction ops generalizing store with
  | nil => exact hstore
  | cons op ops ih =>
    have hop := hops op (List.mem_cons_self op ops)
    have hrest : ∀ o ∈ ops, (storeHashes (opDocs o)).Nodup :=
      fun o ho => hops o (List.mem_cons_of_mem op ho)
    have hstep : (storeHashes (applyIngest store op)).Nodup := by
      cases op with
      | reset docs => exact hop
      | incremental docs =>
        simp only [applyIngest, ingestIncremental, storeHashes,
          List.map_append]
        refine List.Nodup.append hstore ?_ ?_
        · exact List.Nodup.sublist
            ((List.filter_sublist docs).map (fun d => d.content_hash)) hop
        · intro h hmems hmemf
          simp only [List.mem_map] at hmemf
          obtain ⟨d, hdf, rfl⟩ := hmemf
          rw [List.mem_filter] at hdf
          have hnot : d.content_hash ∉ List.map (fun d => d.content_hash) store := by
            simpa [storeHashes] using hdf.2
          exact hnot hmems
    exact ih (applyIngest store op) hstep hrest

/-- Witness for the amended C4 at a concrete input. -/
theorem C4_store_hashes_nodup_witness :
    (storeHashes ([] : List StoredDoc)).Nodup ∧
    (∀ op ∈ [IngestOp.reset [⟨"text one", "h1"⟩],
             IngestOp.incremental [⟨"text one", "h1"⟩, ⟨"text two", "h2"⟩]],
      (storeHashes (opDocs op)).Nodup) ∧
    (storeHashes
        (runIngest []
          [IngestOp.reset [⟨"text one", "h1"⟩],
           IngestOp.incremental
             [⟨"text one", "h1"⟩, ⟨"text two", "h2"⟩]])).Nodup :=
  ⟨by decide, by decide,
    C4_store_hashes_nodup []
      [IngestOp.reset [⟨"text one", "h1"⟩],
       IngestOp.incremental [⟨"text one", "h1"⟩, ⟨"text two", "h2"⟩]]
      (by decide) (by decide)⟩

/-! ### Grounded prompt assembly: `s_app.run_rag_chain`

```
docs = retriever.invoke(expanded_query)
context_parts = []; total_chars = 0; max_chars = 2000
for doc in docs:
    content = doc.page_content
    if total_chars + len(content) <= max_chars:
        context_parts.append(content); total_chars += len(content)
    else:
        remaining = max_chars - total_chars
        if remaining > 200: context_parts.append(content[:remaining])
        break
context = "\n\n".join(context_parts)
prompt = f-string below
sources = [(doc.page_content, doc.metadata) for doc in docs]
```

Retrieval itself is an external collaborator; the embedding takes the
retrieved document list as input.  `total_chars` never exceeds 2000, so the
`max_chars - total_chars` subtraction is safe as `Nat`.
-/

structure RetrievedDoc where
  page_content : String
  metadata : List (String × String)
deriving DecidableEq

/-- The context-budget loop of `run_rag_chain` (`max_chars = 2000`,
partial-prefix threshold 200). -/
def contextParts : List RetrievedDoc → Nat → List String
  | [], _ => []
  | d :: ds, total =>
    if total + d.page_content.length ≤ 2000 then
      d.page_content :: contextParts ds (total + d.page_content.length)
    else if 2000 - total > 200 then
      [(d.page_content.data.take (2000 - total)).asString]
    else
      []

/-- Python's string join for `String`. -/
def joinStr (sep : String) : List String → String
  | [] => ""
  | [x] => x
  | x :: y :: xs => x ++ sep ++ joinStr sep (y :: xs)

/-- The f-string of `run_rag_chain`, verbatim. -/
def buildPrompt (context query : String) : String :=
  "You are a financial literacy assistant for Malaysian youth.\n\nContext:\n"
    ++ context
    ++ "\n\nQuestion: " ++ query
    ++ "\n\nProvide a clear, concise answer (2-3 paragraphs max) based only on the context above:"

/-- The prompt `run_rag_chain` hands to the generation engine. -/
def runRagPrompt (docs : List RetrievedDoc) (query : String) : String :=
  buildPrompt (joinStr "\n\n" (contextParts docs 0)) query

/-- The sources list `run_rag_chain` returns alongside the stream. -/
def runRagSources (docs : List RetrievedDoc) :
    List (String × List (String × String)) :=
  docs.map (fun d => (d.page_content, d.metadata))

theorem leadMatch_append (pat t : List Char) :
    leadMatch pat (pat ++ t) = true := by
  induction pat with
  | nil => rfl
  | cons p ps ih => simp [leadMatch, ih]

theorem leadMatch_mono (pat s t : List Char) (h : leadMatch pat s = true) :
    leadMatch pat (s ++ t) = true := by
  induction pat generalizing s with
  | nil => rfl
  | cons p ps ih =>
    cases s with
    | nil => simp [leadMatch] at h
    | cons c cs =>
      simp only [leadMatch, Bool.and_eq_true, decide_eq_true_eq] at h
      simp [leadMatch, h.1, ih cs h.2]

theorem hasSubstr_of_leadMatch (pat s : List Char)
    (h : leadMatch pat s = true) : hasSubstr pat s = true := by
  cases s with
  | nil => exact h
  | cons c cs => simp [hasSubstr, h]

theorem hasSubstr_append_right (pat s t : List Char)
    (h : hasSubstr pat t = true) : hasSubstr pat (s ++ t) = true := by
  induction s with
  | nil => exact h
  | cons c cs ih => simp [hasSubstr, ih]

theorem hasSubstr_append_left (pat s t : List Char)
    (h : hasSubstr pat s = true) : hasSubstr pat (s ++ t) = true := by
  induction s with
  | nil =>
    cases pat with
    | nil => exact hasSubstr_of_leadMatch _ _ rfl
    | cons p ps => simp [hasSubstr, leadMatch] at h
  | cons c cs ih =>
    simp only [hasSubstr, Bool.or_eq_true] at h
    rcases h with h | h
    · exact hasSubstr_of_leadMatch _ _ (leadMatch_mono _ _ _ h)
    · simp [hasSubstr, ih h]

theorem hasSubstr_self_append (pat t : List Char) :
    hasSubstr pat (pat ++ t) = true :=
  hasSubstr_of_leadMatch _ _ (leadMatch_append pat t)

/-- Any member of a joined part list occurs inside the join. -/
theorem hasSubstr_joinStr (sep : String) (parts : List String) (x : String)
    (hx : x ∈ parts) : hasSubstr x.data (joinStr sep parts).data = true := by
  induction parts with
  | nil => simp at hx
  | cons y ys ih =>
    cases ys with
    | nil =>
      simp only [List.mem_singleton] at hx
      subst hx
      have hl : leadMatch x.data x.data = true := by
        simpa using leadMatch_append x.data []
      exact hasSubstr_of_leadMatch _ _ hl
    | cons z zs =>
      rcases List.mem_cons.mp hx with rfl | hx'
      · show hasSubstr x.data ((x ++ sep ++ joinStr sep (z :: zs)).data) = true
        rw [String.data_append, String.data_append]
        rw [List.append_assoc]
        exact hasSubstr_self_append _ _
      · show hasSubstr x.data ((y ++ sep ++ joinStr sep (z :: zs)).data) = true
        rw [String.data_append]
        exact hasSubstr_append_right _ _ _ (ih hx')

/-- Whenever all retrieved contents fit the 2000-character budget, the loop
keeps every content whole. -/
theorem contextParts_of_fits (docs : List RetrievedDoc) :
    ∀ total, total + (docs.map (fun d => d.page_content.length)).sum ≤ 2000 →
      contextParts docs total = docs.map (fun d => d.page_content) := by
  induction docs with
  | nil => intro total _; rfl
  | cons d ds ih =>
    intro total h
    simp only [List.map_cons, List.sum_cons] at h
    have h1 : total + d.page_content.length ≤ 2000 := by omega
    simp only [contextParts, if_pos h1, List.map_cons]
    exact congrArg _ (ih (total + d.page_content.length) (by omega))

/-- C1 counterexample: for a query whose retrieval returns zero documents,
the prompt `run_rag_chain` builds contains no "no information" instruction
at all — the fixed template is used with an empty context block. -/
theorem C1_counterexample :
    contextParts [] 0 = [] ∧
    hasSubstr "no information".data
      (runRagPrompt [] "What is a bond?").data = false := by
  refine ⟨rfl, ?_⟩
  decide

/-- C1 (amended): for every query for which retrieval returns zero
documents, the built prompt is exactly the fixed template with an empty
context section: it embeds the verbatim question and the directive to
answer based only on the (empty) context above.  No dedicated
"no information" instruction exists in the source (see the
counterexample). -/
theorem C1_empty_retrieval_prompt (query : String) :
    runRagPrompt [] query
      = "You are a financial literacy assistant for Malaysian youth.\n\nContext:\n\n\nQuestion: "
        ++ query
        ++ "\n\nProvide a clear, concise answer (2-3 paragraphs max) based only on the context above:" ∧
    hasSubstr "based only on the context above".data
      (runRagPrompt [] query).data = true := by
  constructor
  · rfl
  · have hC : hasSubstr "based only on the context above".data
        "\n\nProvide a clear, concise answer (2-3 paragraphs max) based only on the context above:".data
          = true := by decide
    rw [runRagPrompt, buildPrompt, String.data_append]
    exact hasSubstr_append_right _ _ _ hC

/-- C6 counterexample: for a query with one retrieved document, the built
prompt contains neither the document's source identifier (its metadata
title), nor any "fact" label, nor a "cite" instruction — the claim's
labeled, source-tagged fact blocks do not exist in the source. -/
theorem C6_counterexample :
    runRagSources [⟨"Savings basics.", [("title", "EPF Guide")]⟩]
      = [("Savings basics.", [("title", "EPF Guide")])] ∧
    hasSubstr "EPF Guide".data
      (runRagPrompt [⟨"Savings basics.", [("title", "EPF Guide")]⟩]
        "How to save?").data = false ∧
    hasSubstr "fact".data
      (runRagPrompt [⟨"Savings basics.", [("title", "EPF Guide")]⟩]
        "How to save?").data = false ∧
    hasSubstr "cite".data
      (runRagPrompt [⟨"Savings basics.", [("title", "EPF Guide")]⟩]
        "How to save?").data = false := by
  refine ⟨rfl, by decide, by decide, by decide⟩

/-- C6 (amended): for every query whose retrieved documents' texts fit the
2000-character context budget, each retrieved text is embedded verbatim
(raw, unlabeled) in the prompt's single context block, the prompt instructs
the engine to answer based only on that context, and the source identifiers
are returned separately alongside the stream (one `(content, metadata)`
pair per document, in retrieval order) rather than being cited inside the
prompt. -/
theorem C6_context_embedding (docs : List RetrievedDoc) (query : String)
    (hfit : (docs.map (fun d => d.page_content.length)).sum ≤ 2000) :
    contextParts docs 0 = docs.map (fun d => d.page_content) ∧
    (∀ d ∈ docs,
      hasSubstr d.page_content.data (runRagPrompt docs query).data = true) ∧
    hasSubstr "based only on the context above".data
      (runRagPrompt docs query).data = true ∧
    runRagSources docs = docs.map (fun d => (d.page_content, d.metadata)) := by
  have hparts : contextParts docs 0 = docs.map (fun d => d.page_content) :=
    contextParts_of_fits docs 0 (by simpa using hfit)
  refine ⟨hparts, ?_, ?_, rfl⟩
  · intro d hd
    have hctx : hasSubstr d.page_content.data
        (joinStr "\n\n" (contextParts docs 0)).data = true := by
      rw [hparts]
      exact hasSubstr_joinStr _ _ _ (List.mem_map_of_mem _ hd)
    rw [runRagPrompt, buildPrompt]
    rw [String.data_append]
    apply hasSubstr_append_left
    rw [String.data_append]
    apply hasSubstr_append_left
    rw [String.data_append]
    apply hasSubstr_append_left
    rw [String.data_append]
    exact hasSubstr_append_right _ _ _ hctx
  · have hC : hasSubstr "based only on the context above".data
        "\n\nProvide a clear, concise answer (2-3 paragraphs max) based only on the context above:".data
          = true := by decide
    rw [runRagPrompt, buildPrompt, String.data_append]
    exact hasSubstr_append_right _ _ _ hC

/-- Witness for the amended C6 at a concrete input. -/
theorem C6_context_embedding_witness :
    (([⟨"Savings basics.", [("title", "EPF Guide")]⟩] :
        List RetrievedDoc).map (fun d => d.page_content.length)).sum ≤ 2000 ∧
    (contextParts [⟨"Savings basics.", [("title", "EPF Guide")]⟩] 0
        = ([⟨"Savings basics.", [("title", "EPF Guide")]⟩] :
            List RetrievedDoc).map (fun d => d.page_content) ∧
      (∀ d ∈ ([⟨"Savings basics.", [("title", "EPF Guide")]⟩] :
          List RetrievedDoc),
        hasSubstr d.page_content.data
          (runRagPrompt [⟨"Savings basics.", [("title", "EPF Guide")]⟩]
            "How to save?").data = true) ∧
      hasSubstr "based only on the context above".data
        (runRagPrompt [⟨"Savings basics.", [("title", "EPF Guide")]⟩]
          "How to save?").data = true ∧
      runRagSources [⟨"Savings basics.", [("title", "EPF Guide")]⟩]
        = ([⟨"Savings basics.", [("title", "EPF Guide")]⟩] :
            List RetrievedDoc).map (fun d => (d.page_content, d.metadata))) :=
  ⟨by decide,
    C6_context_embedding [⟨"Savings basics.", [("title", "EPF Guide")]⟩]
      "How to save?" (by decide)⟩

/-! ### Extractor OCR fallback: step 3 of `pdf_processor.read_pdf_text_pages`

```
combined_text = "\n".join(page_texts)
if len(combined_text.replace("[Image Text]:", "").strip()) < ocr_threshold and OCR_AVAILABLE:
    try:
        page_images = convert_from_path(...)
        if page_images:
            ocr_text = (pytesseract.image_to_string(page_images[0]) or '').strip()
            if ocr_text:
                page_texts = [ocr_text]  # Replace with full OCR
    except Exception as e:
        ...warning, page_texts unchanged...
```

`pts` is the page-text list accumulated by steps 1-2 (native text plus
marked image-OCR fragments); `ocrResult` is the outcome of the full-page
render-and-OCR call (`none` models a caught exception or an empty render).
-/

/-- Python `str.replace(old, new)`: replace all non-overlapping occurrences
left to right.  Fueled structural recursion: every step consumes at least
one character, so fuel equal to the input length (as supplied by
`pyReplace`) always suffices and the fuel-exhausted branch is unreachable. -/
def pyReplaceAux (old new : List Char) : Nat → List Char → List Char
  | _, [] => []
  | 0, cs => cs
  | fuel + 1, c :: cs =>
    if old ≠ [] ∧ leadMatch old (c :: cs) = true then
      new ++ pyReplaceAux old new fuel (cs.drop (old.length - 1))
    else
      c :: pyReplaceAux old new fuel cs

def pyReplace (old new cs : List Char) : List Char :=
  pyReplaceAux old new cs.length cs

/-- The combined-page-text length measured by the OCR-fallback condition:
the joined page texts with the image marker removed and surrounding
whitespace stripped. -/
def pageMeasure (pts : List String) : Nat :=
  (pyStripList (pyReplace "[Image Text]:".data []
    (joinSep ['\n'] (pts.map String.data)))).length

/-- The full-page OCR decision and replacement policy. -/
def fullPageOcrStep (thr : Nat) (ocrAvailable : Bool) (pts : List String)
    (ocrResult : Option String) : List String :=
  if pageMeasure pts < thr ∧ ocrAvailable = true then
    match ocrResult with
    | some raw =>
      if (pyStripList raw.data).isEmpty then pts
      else [(pyStripList raw.data).asString]
    | none => pts
  else pts

/-- C7: for every page where OCR is available and the combined page text
(native plus accepted image-OCR text, marker excluded) is shorter than
`ocr_threshold` characters, a non-empty full-page OCR result replaces the
page's prior text list outright, while an empty OCR result leaves the prior
page text unchanged. -/
theorem C7_full_page_ocr_replaces (thr : Nat) (pts : List String)
    (raw : String) (hshort : pageMeasure pts < thr) :
    ((pyStripList raw.data).isEmpty = false →
      fullPageOcrStep thr true pts (some raw)
        = [(pyStripList raw.data).asString]) ∧
    ((pyStripList raw.data).isEmpty = true →
      fullPageOcrStep thr true pts (some raw) = pts) := by
  constructor <;> intro h <;>
    simp [fullPageOcrStep, hshort, h]

/-- Witness for C7 at a concrete input. -/
theorem C7_full_page_ocr_replaces_witness :
    pageMeasure ["hi"] < 60 ∧
    ((pyStripList " scanned page text ".data).isEmpty = false →
      fullPageOcrStep 60 true ["hi"] (some " scanned page text ")
        = [(pyStripList " scanned page text ".data).asString]) ∧
    ((pyStripList " scanned page text ".data).isEmpty = true →
      fullPageOcrStep 60 true ["hi"] (some " scanned page text ") = ["hi"]) :=
  ⟨by decide, C7_full_page_ocr_replaces 60 ["hi"] " scanned page text " (by decide)⟩

/-! ### Cleaner: `data_cleaner.clean_text`

```
def clean_text(raw):
    if not raw: return ""
    s = unicodedata.normalize("NFKC", raw)
    s = s.replace("\r\n", "\n").replace("\r", "\n")
    lines = s.split("\n")
    cleaned_lines = []
    for ln in lines:
        stripped_ln = ln.strip()
        if any(re.match(p, stripped_ln, IGNORECASE) for p in HEADER_FOOTER_PATTERNS): continue
        if _looks_like_noise(stripped_ln): continue
        cleaned_lines.append(ln)
    s = "\n".join(cleaned_lines)
    s = _normalize_bullets(s).strip()
    if len(s) < 50: return ""
    return s
```

Unicode NFKC normalization lives in the external `unicodedata` library, so
the embedding takes it as an opaque function parameter `nfkc`; every
theorem below holds for all such functions.  The five header/footer regular
expressions and the noise test are embedded as decision procedures over the
character classes restricted to their ASCII members (the float threshold
`< 0.4` is the exact rational `2/5`, which the binary double `0.4`
represents for every realistic line length).
-/

def isDigitCh (c : Char) : Bool := c.isDigit

def isWordCh (c : Char) : Bool := c.isAlphanum || c = '_'

/-- Sequential `.replace("\r\n", "\n").replace("\r", "\n")` (every CRLF pair
collapses, every remaining CR becomes LF). -/
def replaceCR : List Char → List Char
  | [] => []
  | '\r' :: '\n' :: cs => '\n' :: replaceCR cs
  | '\r' :: cs => '\n' :: replaceCR cs
  | c :: cs => c :: replaceCR cs

/-- Python `s.split("\n")` (keeps empty segments). -/
def splitLines : List Char → List (List Char)
  | [] => [[]]
  | c :: cs =>
    if c = '\n' then [] :: splitLines cs
    else
      match splitLines cs with
      | l :: ls => (c :: l) :: ls
      | [] => [[c]]

def dropWs (s : List Char) : List Char := s.dropWhile pyIsSpace

/-- Case-insensitive literal match at the head (patterns are written in
lowercase); returns the unmatched remainder on success. -/
def leadMatchCI : List Char → List Char → Option (List Char)
  | [], s => some s
  | _ :: _, [] => none
  | p :: ps, c :: cs => if c.toLower = p then leadMatchCI ps cs else none

/-- A word boundary after a word character: end of input or a non-word
character next. -/
def wordBoundaryAfterWord : List Char → Bool
  | [] => true
  | c :: _ => !isWordCh c

/-- Pattern `^\s*page\s*\d+\s*(of\s*\d+)?\s*$`, case-insensitive. -/
def matchPageNum (s : List Char) : Bool :=
  match leadMatchCI "page".data (dropWs s) with
  | none => false
  | some r1 =>
    let r2 := dropWs r1
    if (r2.takeWhile isDigitCh).isEmpty then false
    else
      let r3 := dropWs (r2.dropWhile isDigitCh)
      if r3.isEmpty then true
      else
        match leadMatchCI "of".data r3 with
        | none => false
        | some r4 =>
          let r5 := dropWs r4
          if (r5.takeWhile isDigitCh).isEmpty then false
          else (dropWs (r5.dropWhile isDigitCh)).isEmpty

/-- Pattern `^\s*\d+\s*$`. -/
def matchNumOnly (s : List Char) : Bool :=
  let r := dropWs s
  !(r.takeWhile isDigitCh).isEmpty && (dropWs (r.dropWhile isDigitCh)).isEmpty

/-- Pattern `^\s*(copyright|©)\b.*$`, case-insensitive.  After the literal
`copyright` the boundary needs a non-word successor (or the end); after the
non-word character `©` the boundary needs a word successor. -/
def matchCopyright (s : List Char) : Bool :=
  let r := dropWs s
  match leadMatchCI "copyright".data r with
  | some rest => wordBoundaryAfterWord rest
  | none =>
    match r with
    | '©' :: rest =>
      match rest with
      | [] => false
      | c :: _ => isWordCh c
    | _ => false

/-- Pattern `^\s*confidential\b.*$`, case-insensitive. -/
def matchConfidential (s : List Char) : Bool :=
  match leadMatchCI "confidential".data (dropWs s) with
  | some rest => wordBoundaryAfterWord rest
  | none => false

/-- Pattern `^\s*for internal use only\b.*$`, case-insensitive. -/
def matchInternalUse (s : List Char) : Bool :=
  match leadMatchCI "for internal use only".data (dropWs s) with
  | some rest => wordBoundaryAfterWord rest
  | none => false

/-- `any(re.match(p, stripped_ln, IGNORECASE) for p in HEADER_FOOTER_PATTERNS)`. -/
def isHeaderFooter (s : List Char) : Bool :=
  matchPageNum s || matchNumOnly s || matchCopyright s ||
    matchConfidential s || matchInternalUse s

/-- `re.search(r"(.)\1{4,}", s)`: five or more identical consecutive
characters (the dot does not match a newline). -/
def hasRun5 : List Char → Bool
  | c1 :: c2 :: c3 :: c4 :: c5 :: rest =>
    (decide (c1 ≠ '\n') && c1 = c2 && c2 = c3 && c3 = c4 && c4 = c5) ||
      hasRun5 (c2 :: c3 :: c4 :: c5 :: rest)
  | _ => false

/-- `_looks_like_noise` (the `letters / max(1, len(s)) < 0.4` float test is
the exact rational comparison `5 * letters < 2 * max(1, len(s))`). -/
def looksLikeNoise (s : List Char) : Bool :=
  if (pyStripList s).isEmpty then true
  else if 5 * (s.filter (fun c => c.isAlpha)).length < 2 * (max 1 s.length) then true
  else hasRun5 s

/-- The `BULLET_MARKS` glyph set. -/
def isBullet (c : Char) : Bool :=
  c = '•' || c = '▪' || c = '‣' || c = '–' || c = '—' || c = '·' ||
    c = '*' || c = '∙' || c = '●' || c = '◦'

/-- Try to match `\s*(bullet)\s*` at a line-start position; on success,
return whether the last consumed character was a newline (the trailing
`\s*` may swallow newlines, re-enabling a line-start match right after)
and the remainder. -/
def bulletSplit (cs : List Char) : Option (Bool × List Char) :=
  match cs.dropWhile pyIsSpace with
  | b :: rest1 =>
    if isBullet b then
      some (((rest1.takeWhile pyIsSpace).getLast?.getD b) == '\n',
        rest1.dropWhile pyIsSpace)
    else none
  | [] => none

/-- `re.sub(rf"^\s*(?:{bullet_union})\s*", "- ", s, flags=re.MULTILINE)`:
scan left to right; at every line-start position of the original string,
a whitespace-bullet-whitespace run is replaced by a dash and a space.
Fueled structural recursion: every step consumes at least one character,
so fuel equal to the input length (as supplied by `normBullets`) always
suffices and the fuel-exhausted branch is unreachable. -/
def normBulletsAux : Nat → List Char → Bool → List Char
  | _, [], _ => []
  | 0, cs, _ => cs
  | fuel + 1, c :: cs, atStart =>
    if atStart then
      match bulletSplit (c :: cs) with
      | some (lastNl, rest) => '-' :: ' ' :: normBulletsAux fuel rest lastNl
      | none => c :: normBulletsAux fuel cs (c == '\n')
    else
      c :: normBulletsAux fuel cs (c == '\n')

def normBullets (cs : List Char) : List Char :=
  normBulletsAux cs.length cs true

/-- The cleaning pipeline after the initial emptiness guard: normalization,
line-ending collapse, line filtering, bullet normalization, final strip. -/
def processedText (nfkc : List Char → List Char) (raw : List Char) : List Char :=
  let s1 := replaceCR (nfkc raw)
  let kept := (splitLines s1).filter (fun ln =>
    !isHeaderFooter (pyStripList ln) && !looksLikeNoise (pyStripList ln))
  pyStripList (normBullets (joinSep ['\n'] kept))

/-- `clean_text`, parameterized by the external NFKC normalizer. -/
def clean_text (nfkc : List Char → List Char) (raw : List Char) : List Char :=
  if raw.isEmpty then []
  else if (processedText nfkc raw).length < 50 then []
  else processedText nfkc raw

/-- C8: for every input string (and every NFKC normalizer), `clean_text`
returns normally — its result is always either the empty string or the
processed text, and whenever the text remaining after normalization, line
filtering and bullet normalization is shorter than 50 characters the result
is the empty string: an empty result is a valid outcome, not an error. -/
theorem C8_clean_text_total_and_short_empty
    (nfkc : List Char → List Char) (raw : List Char) :
    ((processedText nfkc raw).length < 50 → clean_text nfkc raw = []) ∧
    (clean_text nfkc raw = [] ∨ clean_text nfkc raw = processedText nfkc raw) := by
  constructor
  · intro h
    by_cases hraw : raw.isEmpty <;> simp [clean_text, hraw, h]
  · by_cases hraw : raw.isEmpty
    · left; simp [clean_text, hraw]
    · by_cases h : (processedText nfkc raw).length < 50
      · left; simp [clean_text, hraw, h]
      · right; simp [clean_text, hraw, h]

/-- Witness for C8 at a concrete input (identity normalizer, short text). -/
theorem C8_clean_text_witness :
    (processedText (fun s => s) "hi there".data).length < 50 ∧
    clean_text (fun s => s) "hi there".data = [] :=
  ⟨by decide,
    (C8_clean_text_total_and_short_empty (fun s => s) "hi there".data).1
      (by decide)⟩

/-! ### Calculators (spec-modelled)

The QueryRouter/Calculators component described by the specification is not
present among the repository files available here; only the spec describes
it.  The compound-interest calculator is therefore modelled from the spec,
over exact rationals.
-/

structure CompoundResult where
  final : ℚ
  total_contributed : ℚ
  interest_earned : ℚ
deriving DecidableEq

/-- Round to 2 decimal places (round half up, the usual reading of the
spec's "rounded to 2 decimal places"). -/
def round2 (x : ℚ) : ℚ := (⌊x * 100 + 1 / 2⌋ : ℚ) / 100

/-- Modelled from the spec: the Calculators component (spec section 4.7) is
not among the available source files.  Per the spec: final amount is
`principal × (1+rate/100)^years`, plus an optional recurring monthly
contribution accumulated with the standard future-value-of-annuity formula
on a monthly-compounded rate; the result reports final amount, total
contributed, and interest earned, each rounded to 2 decimal places. -/
def compound_interest (principal rate : ℚ) (years : ℕ) (monthly : ℚ) :
    CompoundResult :=
  let base := principal * (1 + rate / 100) ^ years
  let r_m := rate / 100 / 12
  let n := 12 * years
  let annuity :=
    if monthly > 0 then
      if r_m = 0 then monthly * (n : ℚ)
      else monthly * (((1 + r_m) ^ n - 1) / r_m)
    else 0
  let final := base + annuity
  let contributed := principal + monthly * ((12 * years : ℕ) : ℚ)
  { final := round2 final
    total_contributed := round2 contributed
    interest_earned := round2 (final - contributed) }

/-- C9: the compound-interest calculator is a deterministic pure function
(independent of any retrieval state by construction): on principal 1000,
rate 5 percent, 10 years, no monthly contribution, the final amount is
`1000 × 1.05^10` rounded to 2 decimal places, which is 1628.89. -/
theorem C9_compound_interest_value :
    compound_interest 1000 5 10 0
      = { final := round2 (1000 * (1 + 5 / 100) ^ 10),
          total_contributed := round2 1000,
          interest_earned := round2 (1000 * (1 + 5 / 100) ^ 10 - 1000) } ∧
    (compound_interest 1000 5 10 0).final = 162889 / 100 := by
  constructor
  · simp [compound_interest]
  · norm_num [compound_interest, round2]

end LitBot
